import Mathlib

/-!
Verification of the transformation core of `app.py`: segment-accurate audio
muting/reassembly (`process_video_audio_sync`) and duration-matching audio
resynchronization (`adjust_audio_speed_pydub`), plus the script's temporary
file lifecycle.

Modelling conventions (shallow embedding):
* Time is exact rational seconds (the Python floats).  The code converts
  seconds to milliseconds (`segment['start'] * 1000`) before slicing.
* A pydub `AudioSegment` is a PCM sample list together with its frame rate.
  pydub's millisecond slice `audio[start:end]` clamps both endpoints to the
  track length and converts milliseconds to frame indices by
  `int(ms * frame_rate / 1000)` (`frame_count` + `_parse_position`), then
  slices the byte buffer, which itself clamps; `AudioSegment.silent` of the
  chunk's length followed by pydub's concatenation rate-sync preserves the
  chunk's duration and is all zero samples, modelled as a zero sample list of
  identical length.  `len(audio)` is the duration in milliseconds.
* A moviepy clip is modelled by its duration.  `Clip.subclip(s, e)` wraps
  negative times by adding the duration, raises when the (wrapped) start
  exceeds the duration, and otherwise returns a clip of duration `e - s`
  without clamping `e`.  `concatenate_videoclips` adds durations.
* Fallible Python paths (exceptions) are `Except` values.
-/

namespace Poc

/-- A transcribed word with timestamps in seconds: the Deepgram word objects
`segment['word']`, `segment['start']`, `segment['end']` consumed by
`process_video_audio_sync`.  The field `stop` renders the source's `end`,
which is a reserved word in Lean. -/
structure WordSegment where
  word : String
  start : ℚ
  stop : ℚ
deriving Repr, DecidableEq

/-- pydub `AudioSegment`: the PCM sample buffer and the frame rate in Hz. -/
structure AudioTrack where
  samples : List ℤ
  rate : ℕ
deriving Repr, DecidableEq

/-- moviepy `VideoFileClip`, reduced to its duration in seconds (the only
attribute the reassembly and resynchronization logic depends on). -/
structure VideoTrack where
  duration : ℚ
deriving Repr, DecidableEq

/-- The exceptions the script can raise in the modelled paths.  `emptyInput`
is the `AttributeError` from `sum([]).export(...)` on an empty transcript,
`rangeError` the `ValueError` from `moviepy` `subclip` when the start time
exceeds the clip duration, `tooManyMissingFrames` the pydub
`TooManyMissingFrames` from `AudioSegment.__getitem__` when a slice comes
up more than 2 ms short (a start far below `-len(self)`), `divisionByZero`
the `ZeroDivisionError` from a zero target duration, `invalidFrameRate`
the `audioop` error from `ratecv` on a non-positive frame rate. -/
inductive PipelineError where
  | emptyInput
  | rangeError
  | tooManyMissingFrames
  | divisionByZero
  | invalidFrameRate
deriving Repr, DecidableEq

/-- `len(audio)`: the track duration in milliseconds (kept exact in ℚ;
pydub rounds it to an integer). -/
def lenMs (a : AudioTrack) : ℚ := (a.samples.length : ℚ) * 1000 / (a.rate : ℚ)

/-- `audio.duration_seconds`: duration of the track in seconds. -/
def durationSeconds (a : AudioTrack) : ℚ := (a.samples.length : ℚ) / (a.rate : ℚ)

/-- pydub's millisecond-to-frame conversion `int(self.frame_count(ms))` for
a non-negative position: `⌊ms * rate / 1000⌋`. -/
def msIdx (rate : ℕ) (ms : ℚ) : ℕ := (⌊ms * (rate : ℚ) / 1000⌋).toNat

/-- Python `int(...)` on a rational: truncation toward zero. -/
def truncQ (q : ℚ) : ℤ := if q < 0 then -⌊-q⌋ else ⌊q⌋

/-- pydub `_parse_position` followed by the byte conversion's `int(...)`:
a negative millisecond position first wraps from the track end
(`val = len(self) - abs(val)`), and the result may still be a negative
frame index. -/
def parse_position (a : AudioTrack) (ms : ℚ) : ℤ :=
  truncQ ((if ms < 0 then lenMs a + ms else ms) * (a.rate : ℚ) / 1000)

/-- Python byte-slice index normalization, at frame granularity: a negative
index counts from the buffer end (clamped at 0), a non-negative one is
clamped to the buffer length. -/
def pySliceIdx (n : ℕ) (i : ℤ) : ℕ :=
  if i < 0 then ((n : ℤ) + i).toNat else min i.toNat n

/-- pydub slicing `audio[startMs:endMs]` (`AudioSegment.__getitem__` with a
slice), in full: both endpoints are clamped above by `len(self)`, negative
positions wrap from the track end via `_parse_position`, the byte buffer is
sliced with Python semantics, and the result is compared with the expected
frame count `end - start`: a shortfall of more than 2 ms raises
`TooManyMissingFrames`, a smaller positive one is filled with silence. -/
def sliceAudioPy (a : AudioTrack) (startMs endMs : ℚ) :
    Except PipelineError AudioTrack :=
  let s := min startMs (lenMs a)
  let e := min endMs (lenMs a)
  let sIdx := parse_position a s
  let eIdx := parse_position a e
  let data := (a.samples.take (pySliceIdx a.samples.length eIdx)).drop
    (pySliceIdx a.samples.length sIdx)
  let missing := eIdx - sIdx - (data.length : ℤ)
  if (2 : ℚ) * (a.rate : ℚ) / 1000 < (missing : ℚ) then
    .error .tooManyMissingFrames
  else if 0 < missing then
    .ok { samples := data ++ List.replicate missing.toNat 0, rate := a.rate }
  else
    .ok { samples := data, rate := a.rate }

/-- The value of `sliceAudioPy` in the non-negative-time regime (the
pipeline's segment timestamps are Deepgram word times, in seconds ≥ 0):
both endpoints clamped to the track, converted to frame indices, and the
sample buffer sliced — no wrap, no missing frames, no fault.  The
agreement is `sliceAudioPy_nonneg`. -/
def sliceAudio (a : AudioTrack) (startMs endMs : ℚ) : AudioTrack :=
  let s := min startMs (lenMs a)
  let e := min endMs (lenMs a)
  { samples := (a.samples.take (msIdx a.rate e)).drop (msIdx a.rate s)
    rate := a.rate }

/-- The hardcoded list `filler_words = ["um", "uh", "hmm", "umm"]`. -/
def filler_words : List String := ["um", "uh", "hmm", "umm"]

/-- The test `word in filler_words` deciding whether a segment's chunk is
silenced (exact, case-sensitive membership). -/
def segmentIsMuted (segment : WordSegment) : Bool :=
  filler_words.contains segment.word

/-- The body of the per-segment loop in `process_video_audio_sync`, in
full: slice the audio over `[start*1000, end*1000)` milliseconds (which can
raise) and, for a filler word, replace the chunk with silence of the
identical length. -/
def processChunkPy (audio : AudioTrack) (segment : WordSegment) :
    Except PipelineError AudioTrack :=
  match sliceAudioPy audio (segment.start * 1000) (segment.stop * 1000) with
  | .error e => .error e
  | .ok chunk =>
      if segmentIsMuted segment then
        .ok { samples := List.replicate chunk.samples.length 0
              rate := chunk.rate }
      else
        .ok chunk

/-- The loop body's value in the non-negative-time regime, where slicing
cannot raise (`processChunkPy_eq`). -/
def processChunk (audio : AudioTrack) (segment : WordSegment) : AudioTrack :=
  let chunk := sliceAudio audio (segment.start * 1000) (segment.stop * 1000)
  if segmentIsMuted segment then
    { samples := List.replicate chunk.samples.length 0, rate := chunk.rate }
  else
    chunk

/-- The list `cleaned_audio_segments` accumulated by the loop. -/
def cleanedSegments (audio : AudioTrack) (segments : List WordSegment) :
    List AudioTrack :=
  segments.map (processChunk audio)

/-- `cleaned_audio = sum(cleaned_audio_segments)`: concatenation of the
per-segment chunks. -/
def cleanedAudio (audio : AudioTrack) (segments : List WordSegment) : List ℤ :=
  ((cleanedSegments audio segments).map AudioTrack.samples).flatten

/-- moviepy `video_clip.subclip(tStart, tEnd)`: negative times wrap by adding
the clip duration; a (wrapped) start beyond the duration raises; the result's
duration is `tEnd - tStart`, with the end not clamped. -/
def subclip (duration : ℚ) (tStart tEnd : ℚ) : Except PipelineError ℚ :=
  let s := if tStart < 0 then duration + tStart else tStart
  if duration < s then
    .error .rangeError
  else
    let e := if tEnd < 0 then duration + tEnd else tEnd
    .ok (e - s)

/-- The durations of the `new_video_clips` built from `cleaned_timestamps`
(the first out-of-range start aborts with the moviepy `ValueError`). -/
def videoDurs (video : VideoTrack) (segments : List WordSegment) :
    Except PipelineError (List ℚ) :=
  segments.mapM (fun s => subclip video.duration s.start s.stop)

/-- The result of `process_video_audio_sync`: the concatenated video's
duration and the cleaned audio bound onto it (`set_audio` replaces the
original audio entirely). -/
structure SyncResult where
  videoDuration : ℚ
  audio : AudioTrack
deriving Repr, DecidableEq

/-- `process_video_audio_sync(video_clip, audio_path, segments)`: run the
per-segment audio loop (each slice can raise), concatenate; on an empty
transcript `sum([])` is the integer `0` and `0.export(...)` raises — the
empty test is placed first here because the loop runs zero iterations on an
empty transcript and so cannot raise before the export does; then build the
per-segment subclips and concatenate them, binding the cleaned audio as the
final video's audio. -/
def process_video_audio_sync (video : VideoTrack) (audio : AudioTrack)
    (segments : List WordSegment) : Except PipelineError SyncResult :=
  if segments.isEmpty then
    .error .emptyInput
  else
    match segments.mapM (processChunkPy audio) with
    | .error e => .error e
    | .ok chunks =>
        match videoDurs video segments with
        | .error e => .error e
        | .ok durs =>
            .ok { videoDuration := durs.sum
                  audio := { samples := (chunks.map AudioTrack.samples).flatten
                             rate := audio.rate } }

/-- A nearest-sample model of `audioop.ratecv` converting `xs` from frame
rate `inRate` to `outRate`: the output has `⌊n * outRate / inRate⌋` frames,
each read from the corresponding input position. -/
def resample (xs : List ℤ) (inRate outRate : ℕ) : List ℤ :=
  List.ofFn (fun i : Fin (xs.length * outRate / inRate) =>
    xs.getD (i.val * inRate / outRate) 0)

/-- `adjust_audio_speed_pydub(audio_path, target_duration)`:
`speed_factor = len(audio) / (target_duration * 1000)` (a zero target raises
`ZeroDivisionError`); the samples are respawned at frame rate
`int(frame_rate * speed_factor)` and `set_frame_rate` converts back to the
original rate — returning the track unchanged when the rates are equal, and
raising from `audioop.ratecv` when the overridden rate is not positive. -/
def adjust_audio_speed_pydub (audio : AudioTrack) (target_duration : ℚ) :
    Except PipelineError AudioTrack :=
  let current_duration := lenMs audio
  if target_duration = 0 then
    .error .divisionByZero
  else
    let speed_factor := current_duration / (target_duration * 1000)
    let newRate : ℤ := truncQ ((audio.rate : ℚ) * speed_factor)
    if newRate = (audio.rate : ℤ) then
      .ok audio
    else if newRate ≤ 0 then
      .error .invalidFrameRate
    else
      .ok { samples := resample audio.samples newRate.toNat audio.rate
            rate := audio.rate }

/-! ### The script's temporary-file lifecycle

The top-level `if uploaded_file is not None:` block of `app.py`, modelled by
the files it creates and removes.  External services and media operations
are summarised by success flags; paths that the script's own `try`/`except`
blocks catch proceed to the cleanup code, while an exception raised during
audio extraction (before the `try`) aborts the script with no cleanup. -/

/-- Which steps of a pipeline run succeed.  `extractionOk`: loading the
video and writing `extracted_audio.mp3`; `transcriptionOk`: Deepgram returns
a transcription (its own `try` returns `None` on failure); `hasResults`: the
parsed JSON has the `results`/`channels` shape; `correctionOk`: the OpenAI
call returns corrected text; `ttsOk`: Deepgram TTS writes the speech file;
`cleanupOk`: the final `os.remove` calls succeed. -/
structure RunConfig where
  extractionOk : Bool
  transcriptionOk : Bool
  hasResults : Bool
  correctionOk : Bool
  ttsOk : Bool
  cleanupOk : Bool
deriving Repr, DecidableEq

/-- The observable file/outcome trace of one run: files created on disk,
files removed, whether `final_output_video.mp4` was produced, and whether a
cleanup error was reported via `st.error`. -/
structure RunTrace where
  created : List String
  removed : List String
  finalVideoProduced : Bool
  cleanupErrorReported : Bool
deriving Repr, DecidableEq

/-- The file lifecycle of the `if uploaded_file is not None:` block:
the uploaded video and extracted audio are written first; the processing
creates `cleaned_audio.mp3`, and — when TTS succeeds — `output_audio.wav`,
`adjusted_ai_audio_pydub.wav` and `final_output_video.mp4`.  The cleanup
block then removes only `extracted_audio.mp3` and `temp_uploaded_video.mp4`
inside a `try` whose failure is reported with `st.error` (the first failing
removal skips the second, modelled as no removal).  A failure during audio
extraction is uncaught and skips the cleanup entirely. -/
def runScript (cfg : RunConfig) : RunTrace :=
  if cfg.extractionOk = false then
    { created := ["temp_uploaded_video.mp4"]
      removed := []
      finalVideoProduced := false
      cleanupErrorReported := false }
  else
    let reached := cfg.transcriptionOk && cfg.hasResults && cfg.correctionOk
    let created :=
      ["temp_uploaded_video.mp4", "extracted_audio.mp3"]
        ++ (if reached then ["cleaned_audio.mp3"] else [])
        ++ (if reached && cfg.ttsOk then
              ["output_audio.wav", "adjusted_ai_audio_pydub.wav",
               "final_output_video.mp4"]
            else [])
    { created := created
      removed := if cfg.cleanupOk then
                   ["extracted_audio.mp3", "temp_uploaded_video.mp4"]
                 else []
      finalVideoProduced := reached && cfg.ttsOk
      cleanupErrorReported := cfg.cleanupOk = false }

/-- Whether an `Except` computation succeeded (no exception raised). -/
def exceptOk {ε α : Type _} : Except ε α → Bool
  | .ok _ => true
  | .error _ => false

/-! ### Helper lemmas -/

lemma exbind_ok {α β ε : Type _} (a : α) (f : α → Except ε β) :
    (Except.ok a >>= f) = f a := rfl

lemma exbind_error {α β ε : Type _} (e : ε) (f : α → Except ε β) :
    ((Except.error e : Except ε α) >>= f) = .error e := rfl

lemma mapM_exc_append {α β ε : Type _} (f : α → Except ε β)
    (A B : List α) :
    (A ++ B).mapM f =
      match A.mapM f, B.mapM f with
      | .ok xs, .ok ys => .ok (xs ++ ys)
      | .error e, _ => .error e
      | .ok _, .error e => .error e := by
  induction A with
  | nil =>
    simp only [List.nil_append]
    have hnil : ([] : List α).mapM f = .ok [] := rfl
    rw [hnil]
    cases B.mapM f <;> rfl
  | cons x t ih =>
    rw [List.cons_append, List.mapM_cons, List.mapM_cons]
    cases hx : f x with
    | error e => rw [exbind_error, exbind_error]
    | ok d =>
      rw [exbind_ok, exbind_ok, ih]
      cases t.mapM f with
      | error e => rfl
      | ok xs =>
        cases B.mapM f with
        | error e => rfl
        | ok ys => rfl

lemma msIdx_mono (r : ℕ) {x y : ℚ} (h : x ≤ y) : msIdx r x ≤ msIdx r y := by
  unfold msIdx
  have h2 : x * (r : ℚ) / 1000 ≤ y * (r : ℚ) / 1000 := by
    apply div_le_div_of_nonneg_right ?_ (by norm_num)
    exact mul_le_mul_of_nonneg_right h (by positivity)
  exact Int.toNat_le_toNat (Int.floor_le_floor h2)

lemma msIdx_le_length (a : AudioTrack) (hr : 0 < a.rate) {x : ℚ}
    (h : x ≤ lenMs a) : msIdx a.rate x ≤ a.samples.length := by
  have hr' : (0 : ℚ) < (a.rate : ℚ) := by exact_mod_cast hr
  have hq : x * (a.rate : ℚ) / 1000 ≤ (a.samples.length : ℚ) := by
    rw [div_le_iff₀ (by norm_num : (0 : ℚ) < 1000)]
    calc x * (a.rate : ℚ)
        ≤ lenMs a * (a.rate : ℚ) := mul_le_mul_of_nonneg_right h hr'.le
      _ = (a.samples.length : ℚ) * 1000 := by
          unfold lenMs; field_simp
  have hfl : ⌊x * (a.rate : ℚ) / 1000⌋ ≤ (a.samples.length : ℤ) := by
    calc ⌊x * (a.rate : ℚ) / 1000⌋
        ≤ ⌊(a.samples.length : ℚ)⌋ := Int.floor_le_floor hq
      _ = (a.samples.length : ℤ) := Int.floor_natCast _
  unfold msIdx
  omega

lemma sliceAudio_length (a : AudioTrack) (hr : 0 < a.rate) {sMs eMs : ℚ}
    (hse : sMs ≤ eMs) (hb : eMs ≤ lenMs a) :
    (sliceAudio a sMs eMs).samples.length
      = msIdx a.rate eMs - msIdx a.rate sMs := by
  unfold sliceAudio
  rw [min_eq_left (hse.trans hb), min_eq_left hb]
  have he := msIdx_le_length a hr hb
  simp only [List.length_drop, List.length_take]
  omega

lemma sliceAudio_length_le (a : AudioTrack) (sMs eMs : ℚ) :
    (sliceAudio a sMs eMs).samples.length ≤ a.samples.length := by
  unfold sliceAudio
  simp only [List.length_drop, List.length_take]
  omega

lemma msIdx_eval (r : ℕ) (ms : ℚ) (n : ℕ)
    (h : ⌊ms * (r : ℚ) / 1000⌋ = (n : ℤ)) : msIdx r ms = n := by
  unfold msIdx
  rw [h]
  simp

lemma msIdx_lenMs (a : AudioTrack) (hr : 0 < a.rate) :
    msIdx a.rate (lenMs a) = a.samples.length := by
  have hrq : ((a.rate : ℚ)) ≠ 0 := Nat.cast_ne_zero.mpr hr.ne'
  apply msIdx_eval
  unfold lenMs
  rw [show (a.samples.length : ℚ) * 1000 / (a.rate : ℚ) * (a.rate : ℚ) / 1000
      = (a.samples.length : ℚ) by field_simp]
  exact Int.floor_natCast _

lemma sliceAudio_length_clamped (a : AudioTrack) (hr : 0 < a.rate)
    {sMs eMs : ℚ} (hs : sMs ≤ lenMs a) (he : lenMs a ≤ eMs) :
    (sliceAudio a sMs eMs).samples.length
      = a.samples.length - msIdx a.rate sMs := by
  unfold sliceAudio
  rw [min_eq_left hs, min_eq_right he]
  simp only [List.length_drop, List.length_take]
  rw [msIdx_lenMs a hr]
  omega

lemma truncQ_eq_floor {q : ℚ} (h : 0 ≤ q) : truncQ q = ⌊q⌋ := by
  unfold truncQ
  rw [if_neg (not_lt.mpr h)]

lemma take_min {α : Type _} (l : List α) (k : ℕ) :
    l.take (min k l.length) = l.take k := by
  rcases le_total k l.length with h | h
  · rw [min_eq_left h]
  · rw [min_eq_right h, List.take_length, List.take_of_length_le h]

lemma drop_min {α : Type _} (l : List α) (k m : ℕ) (hm : l.length ≤ m) :
    l.drop (min k m) = l.drop k := by
  rcases le_total k m with h | h
  · rw [min_eq_left h]
  · rw [min_eq_right h, List.drop_eq_nil_of_le hm,
      List.drop_eq_nil_of_le (le_trans hm h)]

lemma msIdx_le_length_weak (a : AudioTrack) {x : ℚ} (h : x ≤ lenMs a) :
    msIdx a.rate x ≤ a.samples.length := by
  rcases Nat.eq_zero_or_pos a.rate with h0 | hpos
  · unfold msIdx
    rw [h0]
    simp
  · exact msIdx_le_length a hpos h

lemma parse_position_nonneg (a : AudioTrack) {ms : ℚ} (h : 0 ≤ ms) :
    parse_position a ms = (msIdx a.rate ms : ℤ) := by
  unfold parse_position msIdx
  rw [if_neg (not_lt.mpr h)]
  have hq : 0 ≤ ms * (a.rate : ℚ) / 1000 :=
    div_nonneg (mul_nonneg h (by positivity)) (by norm_num)
  rw [truncQ_eq_floor hq, Int.toNat_of_nonneg (Int.floor_nonneg.mpr hq)]

lemma pySliceIdx_natCast (n k : ℕ) :
    pySliceIdx n (k : ℤ) = min k n := by
  unfold pySliceIdx
  rw [if_neg (not_lt.mpr (Int.natCast_nonneg k)), Int.toNat_natCast]

lemma sliceAudioPy_nonneg (a : AudioTrack) {sMs eMs : ℚ}
    (h1 : 0 ≤ sMs) (h2 : 0 ≤ eMs) :
    sliceAudioPy a sMs eMs = .ok (sliceAudio a sMs eMs) := by
  have hl : 0 ≤ lenMs a := by unfold lenMs; positivity
  have hs' : 0 ≤ min sMs (lenMs a) := le_min h1 hl
  have he' : 0 ≤ min eMs (lenMs a) := le_min h2 hl
  have heI : msIdx a.rate (min eMs (lenMs a)) ≤ a.samples.length :=
    msIdx_le_length_weak a (min_le_right _ _)
  simp only [sliceAudioPy, sliceAudio]
  rw [parse_position_nonneg a hs', parse_position_nonneg a he',
    pySliceIdx_natCast, pySliceIdx_natCast,
    take_min a.samples (msIdx a.rate (min eMs (lenMs a))),
    drop_min _ (msIdx a.rate (min sMs (lenMs a))) a.samples.length
      (by rw [List.length_take]; exact min_le_right _ _)]
  have hlen : ((a.samples.take (msIdx a.rate (min eMs (lenMs a)))).drop
      (msIdx a.rate (min sMs (lenMs a)))).length
      = min (msIdx a.rate (min eMs (lenMs a))) a.samples.length
        - msIdx a.rate (min sMs (lenMs a)) := by
    simp [List.length_drop, List.length_take]
  split
  · next hcond =>
      exfalso
      rw [hlen] at hcond
      have h2r : (0 : ℚ) ≤ 2 * (a.rate : ℚ) / 1000 := by positivity
      have hposZ : (0 : ℤ) <
          (msIdx a.rate (min eMs (lenMs a)) : ℤ)
            - (msIdx a.rate (min sMs (lenMs a)) : ℤ)
            - ((min (msIdx a.rate (min eMs (lenMs a))) a.samples.length
                - msIdx a.rate (min sMs (lenMs a)) : ℕ) : ℤ) := by
        exact_mod_cast lt_of_le_of_lt h2r hcond
      omega
  · split
    · next hcond2 =>
        exfalso
        rw [hlen] at hcond2
        omega
    · rfl

lemma processChunk_samples_length (a : AudioTrack) (s : WordSegment) :
    (processChunk a s).samples.length
      = (sliceAudio a (s.start * 1000) (s.stop * 1000)).samples.length := by
  unfold processChunk
  split <;> simp

lemma processChunk_zero (a : AudioTrack) (z : WordSegment)
    (hz : z.start = z.stop) : (processChunk a z).samples = [] := by
  have hlen : (sliceAudio a (z.start * 1000) (z.stop * 1000)).samples.length = 0 := by
    unfold sliceAudio
    rw [hz]
    simp only [List.length_drop, List.length_take]
    omega
  have h := processChunk_samples_length a z
  rw [hlen] at h
  exact List.length_eq_zero.mp h

lemma processChunk_rate (a : AudioTrack) (s : WordSegment) :
    (processChunk a s).rate = a.rate := by
  unfold processChunk sliceAudio
  split <;> rfl

lemma processChunkPy_eq (a : AudioTrack) (s : WordSegment)
    (h1 : 0 ≤ s.start) (h2 : 0 ≤ s.stop) :
    processChunkPy a s = .ok (processChunk a s) := by
  unfold processChunkPy
  rw [sliceAudioPy_nonneg a (mul_nonneg h1 (by norm_num))
    (mul_nonneg h2 (by norm_num))]
  cases hmm : segmentIsMuted s <;> simp [processChunk, hmm]

lemma mapM_chunksPy (a : AudioTrack) (l : List WordSegment)
    (h : ∀ s ∈ l, 0 ≤ s.start ∧ 0 ≤ s.stop) :
    l.mapM (processChunkPy a) = .ok (l.map (processChunk a)) := by
  induction l with
  | nil => rfl
  | cons x t ih =>
    rw [List.mapM_cons,
      processChunkPy_eq a x (h x (by simp)).1 (h x (by simp)).2,
      exbind_ok, ih (fun s hs => h s (by simp [hs])), exbind_ok]
    rfl

lemma cleanedAudio_length (a : AudioTrack) (l : List WordSegment) :
    (cleanedAudio a l).length
      = (l.map (fun s => (processChunk a s).samples.length)).sum := by
  unfold cleanedAudio cleanedSegments
  simp [List.map_map, Function.comp_def]

lemma sum_spans_eq (l : List WordSegment) (h : l ≠ [])
    (hc : List.Chain' (fun u w => u.stop = w.start) l) :
    (l.map (fun s => s.stop - s.start)).sum
      = (l.getLast h).stop - (l.head h).start := by
  induction l with
  | nil => exact absurd rfl h
  | cons x t ih =>
    cases t with
    | nil => simp
    | cons y t2 =>
      have hxy : x.stop = y.start := (List.chain'_cons.mp hc).1
      have hc2 : List.Chain' (fun u w => u.stop = w.start) (y :: t2) :=
        (List.chain'_cons.mp hc).2
      have ih2 := ih (by simp) hc2
      have hlast : (x :: y :: t2).getLast h = (y :: t2).getLast (by simp) :=
        List.getLast_cons (by simp)
      rw [List.map_cons, List.sum_cons, ih2, hlast]
      simp only [List.head_cons]
      rw [hxy]
      ring

lemma sum_msIdx_spans (r : ℕ) (l : List WordSegment) (h : l ≠ [])
    (hc : List.Chain' (fun u w => u.stop = w.start) l)
    (hm : ∀ s ∈ l, msIdx r (s.start * 1000) ≤ msIdx r (s.stop * 1000)) :
    (l.map (fun s => msIdx r (s.stop * 1000) - msIdx r (s.start * 1000))).sum
        = msIdx r ((l.getLast h).stop * 1000)
            - msIdx r ((l.head h).start * 1000)
      ∧ msIdx r ((l.head h).start * 1000)
          ≤ msIdx r ((l.getLast h).stop * 1000) := by
  induction l with
  | nil => exact absurd rfl h
  | cons x t ih =>
    cases t with
    | nil =>
      refine ⟨by simp, ?_⟩
      exact hm x (by simp)
    | cons y t2 =>
      have hxy : x.stop = y.start := (List.chain'_cons.mp hc).1
      have hc2 : List.Chain' (fun u w => u.stop = w.start) (y :: t2) :=
        (List.chain'_cons.mp hc).2
      have ih2 := ih (by simp) hc2 (fun s hs => hm s (by simp [hs]))
      have hmx := hm x (by simp)
      have hlast : (x :: y :: t2).getLast h = (y :: t2).getLast (by simp) :=
        List.getLast_cons (by simp)
      rw [List.map_cons, List.sum_cons, hlast]
      simp only [List.head_cons] at ih2 ⊢
      rw [hxy] at hmx ⊢
      omega

/-- The start position of segment `i`'s chunk inside the concatenated
cleaned audio: the total length of the chunks before it. -/
def chunkOffset (a : AudioTrack) (l : List WordSegment) (i : ℕ) : ℕ :=
  ((l.take i).map (fun s => (processChunk a s).samples.length)).sum

lemma flatten_getElem? (L : List (List ℤ)) :
    ∀ (i k : ℕ) (hi : i < L.length), k < L[i].length →
      L.flatten[((L.take i).map List.length).sum + k]? = L[i][k]? := by
  induction L with
  | nil => intro i k hi; exact absurd hi (by simp)
  | cons x t ih =>
    intro i k hi hk
    cases i with
    | zero =>
      simp only [List.take_zero, List.map_nil, List.sum_nil, Nat.zero_add,
        List.flatten_cons, List.getElem_cons_zero] at hk ⊢
      rw [List.getElem?_append, if_pos hk]
    | succ j =>
      simp only [List.take_succ_cons, List.map_cons, List.sum_cons,
        List.flatten_cons, List.getElem_cons_succ] at hk ⊢
      have harr : x.length + ((t.take j).map List.length).sum + k
          = x.length + (((t.take j).map List.length).sum + k) := by omega
      rw [harr, List.getElem?_append_right (by omega)]
      have hsub : x.length + (((t.take j).map List.length).sum + k) - x.length
          = ((t.take j).map List.length).sum + k := by omega
      rw [hsub]
      exact ih j k (by simpa using hi) hk

lemma subclip_ok_of_le (d : ℚ) {s e : ℚ} (h0 : 0 ≤ s) (hd : s ≤ d) :
    subclip d s e = .ok ((if e < 0 then d + e else e) - s) := by
  unfold subclip
  rw [if_neg (not_lt.mpr h0), if_neg (not_lt.mpr hd)]

lemma videoDurs_ok (v : VideoTrack) (l : List WordSegment)
    (h : ∀ s ∈ l, 0 ≤ s.start ∧ s.start ≤ v.duration ∧ 0 ≤ s.stop) :
    videoDurs v l = .ok (l.map (fun s => s.stop - s.start)) := by
  induction l with
  | nil => rfl
  | cons x t ih =>
    obtain ⟨h1, h2, h3⟩ := h x (by simp)
    unfold videoDurs at ih ⊢
    rw [List.mapM_cons, subclip_ok_of_le _ h1 h2, if_neg (not_lt.mpr h3),
      exbind_ok, ih (fun s hs => h s (by simp [hs])), exbind_ok]
    rfl

lemma videoDurs_isOk (v : VideoTrack) (l : List WordSegment)
    (h : ∀ s ∈ l, s.start ≤ v.duration) :
    ∃ ds, videoDurs v l = .ok ds := by
  induction l with
  | nil => exact ⟨[], rfl⟩
  | cons x t ih =>
    obtain ⟨ds, hds⟩ := ih (fun s hs => h s (by simp [hs]))
    have hx : ∃ d, subclip v.duration x.start x.stop = .ok d := by
      unfold subclip
      by_cases hneg : x.start < 0
      · rw [if_pos hneg, if_neg (by linarith : ¬ v.duration < v.duration + x.start)]
        exact ⟨_, rfl⟩
      · rw [if_neg hneg, if_neg (not_lt.mpr (h x (by simp)))]
        exact ⟨_, rfl⟩
    obtain ⟨d, hd⟩ := hx
    unfold videoDurs at hds ⊢
    rw [List.mapM_cons, hd, exbind_ok, hds, exbind_ok]
    exact ⟨_, rfl⟩

lemma videoDurs_append (v : VideoTrack) (A B : List WordSegment) :
    videoDurs v (A ++ B) =
      match videoDurs v A, videoDurs v B with
      | .ok xs, .ok ys => .ok (xs ++ ys)
      | .error e, _ => .error e
      | .ok _, .error e => .error e := by
  induction A with
  | nil =>
    simp only [List.nil_append]
    have hnil : videoDurs v [] = .ok [] := rfl
    rw [hnil]
    cases videoDurs v B <;> rfl
  | cons x t ih =>
    unfold videoDurs at ih ⊢
    rw [List.cons_append, List.mapM_cons, List.mapM_cons]
    cases hx : subclip v.duration x.start x.stop with
    | error e => rw [exbind_error, exbind_error]
    | ok d =>
      rw [exbind_ok, exbind_ok, ih]
      cases List.mapM (fun s => subclip v.duration s.start s.stop) t with
      | error e => rfl
      | ok xs =>
        cases List.mapM (fun s => subclip v.duration s.start s.stop) B with
        | error e => rfl
        | ok ys => rfl

lemma truncQ_nonpos {q : ℚ} (h : q ≤ 0) : truncQ q ≤ 0 := by
  unfold truncQ
  split
  · have : (0 : ℤ) ≤ ⌊-q⌋ := by
      apply Int.floor_nonneg.mpr
      linarith
    omega
  · have hq0 : q = 0 := le_antisymm h (not_lt.mp (by assumption))
    simp [hq0]

lemma truncQ_natCast (n : ℕ) : truncQ (n : ℚ) = (n : ℤ) := by
  unfold truncQ
  rw [if_neg (not_lt.mpr (by positivity)), Int.floor_natCast]

/-! ### Claim theorems -/

/-- Claim C3: a segment is classified filler (muted) iff its text is an
exact, case-sensitive member of the fixed lexicon {"um", "uh", "hmm",
"umm"}; capitalized or punctuated variants such as "Um," are classified
normal — no fuzzy matching, no punctuation stripping. -/
theorem claim3_filler_exact_match :
    (∀ s : WordSegment, segmentIsMuted s = true ↔
        s.word = "um" ∨ s.word = "uh" ∨ s.word = "hmm" ∨ s.word = "umm") ∧
    segmentIsMuted ⟨"Um,", 0, 1⟩ = false ∧
    segmentIsMuted ⟨"Um", 0, 1⟩ = false ∧
    segmentIsMuted ⟨"um,", 0, 1⟩ = false ∧
    segmentIsMuted ⟨"UM", 0, 1⟩ = false ∧
    segmentIsMuted ⟨"um", 0, 1⟩ = true := by
  refine ⟨fun s => ?_, by decide, by decide, by decide, by decide, by decide⟩
  simp [segmentIsMuted, filler_words]

/-- Claim C4: reassembling an empty transcript signals an error (the
spec's `EmptyInputError`): with zero segments `sum([])` is the integer `0`
and the following `export` call raises, so an empty transcript is never
silently tolerated. -/
theorem claim4_empty_transcript_error (v : VideoTrack) (a : AudioTrack) :
    process_video_audio_sync v a [] = .error .emptyInput := rfl

/-- Claim C5: resynchronizing with a non-positive target duration signals
an error (the spec's `InvalidTargetError`): a zero target raises a division
by zero, a negative target makes the overridden frame rate non-positive and
`ratecv` rejects it. -/
theorem claim5_nonpositive_target_error (a : AudioTrack) (t : ℚ)
    (hr : 0 < a.rate) (ht : t ≤ 0) :
    adjust_audio_speed_pydub a t
      = .error (if t = 0 then .divisionByZero else .invalidFrameRate) := by
  unfold adjust_audio_speed_pydub
  by_cases h0 : t = 0
  · rw [if_pos h0, if_pos h0]
  · rw [if_neg h0, if_neg h0]
    have htneg : t < 0 := lt_of_le_of_ne ht h0
    have hlen : (0 : ℚ) ≤ lenMs a := by
      unfold lenMs; positivity
    have hfac : lenMs a / (t * 1000) ≤ 0 :=
      div_nonpos_of_nonneg_of_nonpos hlen (by linarith)
    have hprod : (a.rate : ℚ) * (lenMs a / (t * 1000)) ≤ 0 :=
      mul_nonpos_of_nonneg_of_nonpos (by positivity) hfac
    have hrate : truncQ ((a.rate : ℚ) * (lenMs a / (t * 1000))) ≤ 0 :=
      truncQ_nonpos hprod
    rw [if_neg (by omega : ¬ truncQ ((a.rate : ℚ) * (lenMs a / (t * 1000)))
          = (a.rate : ℤ)),
      if_pos hrate]

/-- Claim C5 witness: at a concrete track, zero and negative targets both
yield errors. -/
theorem claim5_nonpositive_target_error_witness :
    adjust_audio_speed_pydub ⟨[1, 2], 2⟩ 0 = .error .divisionByZero ∧
    adjust_audio_speed_pydub ⟨[1, 2], 2⟩ (-1) = .error .invalidFrameRate := by
  constructor
  · exact claim5_nonpositive_target_error ⟨[1, 2], 2⟩ 0 (by decide) (by norm_num)
  · exact claim5_nonpositive_target_error ⟨[1, 2], 2⟩ (-1) (by decide) (by norm_num)

/-- Claim C8: resynchronizing a track to its own current duration is a
no-op: the speed factor is exactly 1, the overridden frame rate equals the
original, and `set_frame_rate` returns the track unchanged. -/
theorem claim8_resync_identity (a : AudioTrack)
    (hr : 0 < a.rate) (hne : a.samples ≠ []) :
    adjust_audio_speed_pydub a (durationSeconds a) = .ok a := by
  have hn : 0 < a.samples.length := List.length_pos.mpr hne
  have hrq : (0 : ℚ) < (a.rate : ℚ) := by exact_mod_cast hr
  have hnq : (0 : ℚ) < (a.samples.length : ℚ) := by exact_mod_cast hn
  have hdur : durationSeconds a ≠ 0 := by
    unfold durationSeconds
    positivity
  unfold adjust_audio_speed_pydub
  rw [if_neg hdur]
  have hfac : lenMs a / (durationSeconds a * 1000) = 1 := by
    unfold lenMs durationSeconds
    field_simp
  rw [hfac]
  simp [mul_one, truncQ_natCast]

/-- Claim C8 witness: a concrete 3-sample track at 3 Hz (duration 1 s) is
returned unchanged. -/
theorem claim8_resync_identity_witness :
    adjust_audio_speed_pydub ⟨[5, 6, 7], 3⟩ (durationSeconds ⟨[5, 6, 7], 3⟩)
      = .ok ⟨[5, 6, 7], 3⟩ :=
  claim8_resync_identity ⟨[5, 6, 7], 3⟩ (by decide) (by decide)

/-- Claim C10: the reassembler is deterministic (equal inputs give equal
outputs) and the processing of segment `i` depends only on that segment and
the input audio: whether a chunk is muted depends only on the segment's
word, and the `i`-th cleaned chunk is unchanged when other segments or any
segment's timestamps elsewhere change. -/
theorem claim10_mute_depends_only_on_word (v : VideoTrack) (a : AudioTrack)
    (T₁ T₂ T₃ T₄ : List WordSegment) (s₁ s₂ : WordSegment) (i : ℕ)
    (hw : s₁.word = s₂.word) (hi : T₁[i]? = T₂[i]?) (hT : T₃ = T₄) :
    segmentIsMuted s₁ = segmentIsMuted s₂ ∧
    (cleanedSegments a T₁)[i]? = (cleanedSegments a T₂)[i]? ∧
    process_video_audio_sync v a T₃ = process_video_audio_sync v a T₄ := by
  refine ⟨?_, ?_, by rw [hT]⟩
  · unfold segmentIsMuted
    rw [hw]
  · unfold cleanedSegments
    rw [List.getElem?_map, List.getElem?_map, hi]

/-- Claim C10 witness: the first segment's chunk is the same under two
transcripts that differ in their second segment, and the mute decision for
"um" ignores timestamps. -/
theorem claim10_mute_depends_only_on_word_witness :
    segmentIsMuted ⟨"um", 0, 1⟩ = segmentIsMuted ⟨"um", 5, 9⟩ ∧
    (cleanedSegments ⟨[1, 2], 2⟩ [⟨"um", 0, 1⟩, ⟨"aaa", 1, 2⟩])[0]?
      = (cleanedSegments ⟨[1, 2], 2⟩ [⟨"um", 0, 1⟩, ⟨"bbb", 7, 9⟩])[0]? ∧
    process_video_audio_sync ⟨1⟩ ⟨[1, 2], 2⟩ [⟨"uh", 0, 1⟩]
      = process_video_audio_sync ⟨1⟩ ⟨[1, 2], 2⟩ [⟨"uh", 0, 1⟩] :=
  claim10_mute_depends_only_on_word ⟨1⟩ ⟨[1, 2], 2⟩
    [⟨"um", 0, 1⟩, ⟨"aaa", 1, 2⟩] [⟨"um", 0, 1⟩, ⟨"bbb", 7, 9⟩]
    [⟨"uh", 0, 1⟩] [⟨"uh", 0, 1⟩] ⟨"um", 0, 1⟩ ⟨"um", 5, 9⟩ 0
    rfl (by decide) rfl

/-- Claim C1 counterexample: with a gap between segments ([0, 1/2) then
[3/4, 2)) over a 1-second track, the reassembled video duration is 7/4 —
the sum of spans, but not `T[N-1].end - T[0].start = 2` — and the
reassembled audio holds 8 samples (0.8 s at 10 Hz) because the second
chunk is clamped to the track end, so the audio duration is not the sum of
the segment spans either. -/
theorem claim1_counterexample :
    (process_video_audio_sync ⟨2⟩ ⟨List.replicate 10 1, 10⟩
        [⟨"a", 0, 1/2⟩, ⟨"b", 3/4, 2⟩]).map SyncResult.videoDuration
      = .ok (7/4) ∧
    (process_video_audio_sync ⟨2⟩ ⟨List.replicate 10 1, 10⟩
        [⟨"a", 0, 1/2⟩, ⟨"b", 3/4, 2⟩]).map
          (fun res => res.audio.samples.length) = .ok 8 ∧
    ((7 : ℚ)/4 ≠ 2 - 0) ∧
    (((8 : ℚ)/10) ≠ ((1/2 : ℚ) - 0) + (2 - 3/4)) := by
  have hvd := videoDurs_ok ⟨2⟩ [⟨"a", 0, 1/2⟩, ⟨"b", 3/4, 2⟩]
    (by intro s hs; fin_cases hs <;> norm_num)
  have hch := mapM_chunksPy ⟨List.replicate 10 1, 10⟩
    [⟨"a", 0, 1/2⟩, ⟨"b", 3/4, 2⟩]
    (by intro s hs; fin_cases hs <;> norm_num)
  have hproc : process_video_audio_sync ⟨2⟩ ⟨List.replicate 10 1, 10⟩
      [⟨"a", 0, 1/2⟩, ⟨"b", 3/4, 2⟩]
      = .ok ⟨(([⟨"a", 0, 1/2⟩, ⟨"b", 3/4, 2⟩] : List WordSegment).map
            (fun u => u.stop - u.start)).sum,
          ⟨cleanedAudio ⟨List.replicate 10 1, 10⟩
            [⟨"a", 0, 1/2⟩, ⟨"b", 3/4, 2⟩], 10⟩⟩ := by
    unfold process_video_audio_sync
    rw [if_neg (by simp), hch, hvd]
    rfl
  have hc1 : (processChunk ⟨List.replicate 10 1, 10⟩
      ⟨"a", 0, 1/2⟩).samples.length = 5 := by
    rw [processChunk_samples_length,
      sliceAudio_length ⟨List.replicate 10 1, 10⟩ (by decide)
        (by norm_num) (by norm_num [lenMs])]
    show msIdx 10 ((1/2 : ℚ) * 1000) - msIdx 10 ((0 : ℚ) * 1000) = 5
    rw [msIdx_eval 10 ((1/2 : ℚ) * 1000) 5 (by norm_num),
      msIdx_eval 10 ((0 : ℚ) * 1000) 0 (by norm_num)]
  have hc2 : (processChunk ⟨List.replicate 10 1, 10⟩
      ⟨"b", 3/4, 2⟩).samples.length = 3 := by
    rw [processChunk_samples_length,
      sliceAudio_length_clamped ⟨List.replicate 10 1, 10⟩ (by decide)
        (by norm_num [lenMs]) (by norm_num [lenMs])]
    show (List.replicate (10 : ℕ) (1 : ℤ)).length
        - msIdx 10 ((3/4 : ℚ) * 1000) = 3
    rw [msIdx_eval 10 ((3/4 : ℚ) * 1000) 7 (by norm_num),
      List.length_replicate]
  have hlen8 : (cleanedAudio ⟨List.replicate 10 1, 10⟩
      [⟨"a", 0, 1/2⟩, ⟨"b", 3/4, 2⟩]).length = 8 := by
    rw [cleanedAudio_length]
    simp only [List.map_cons, List.map_nil, List.sum_cons, List.sum_nil]
    rw [hc1, hc2]
    rfl
  refine ⟨?_, ?_, by norm_num, by norm_num⟩
  · rw [hproc]
    show Except.ok
      ((([⟨"a", 0, 1/2⟩, ⟨"b", 3/4, 2⟩] : List WordSegment).map
        (fun u => u.stop - u.start)).sum) = _
    simp only [List.map_cons, List.map_nil, List.sum_cons, List.sum_nil,
      Except.ok.injEq]
    norm_num
  · rw [hproc]
    show Except.ok ((cleanedAudio ⟨List.replicate 10 1, 10⟩
        [⟨"a", 0, 1/2⟩, ⟨"b", 3/4, 2⟩]).length) = _
    rw [hlen8]

/-- Claim C1 (amended): for a transcript with N ≥ 1 contiguous segments
whose timestamps lie within both tracks, the reassembled video duration
equals the sum of the per-segment spans, which equals
`T[N-1].end - T[0].start`; the reassembled audio's sample count equals the
sum of the per-segment sample spans, which telescopes to the sample index
of `T[N-1].end` minus that of `T[0].start`; and silencing never changes a
chunk's length, independent of classification. -/
theorem claim1_amended_duration (v : VideoTrack) (a : AudioTrack)
    (l : List WordSegment) (hne : l ≠ [])
    (hchain : List.Chain' (fun u w => u.stop = w.start) l)
    (hr : 0 < a.rate)
    (hb : ∀ s ∈ l, 0 ≤ s.start ∧ s.start ≤ s.stop ∧ s.stop * 1000 ≤ lenMs a
        ∧ s.start ≤ v.duration)
    (s : WordSegment) (hs : s ∈ l) :
    (process_video_audio_sync v a l).map SyncResult.videoDuration
        = .ok ((l.map (fun u => u.stop - u.start)).sum) ∧
    (process_video_audio_sync v a l).map SyncResult.videoDuration
        = .ok ((l.getLast hne).stop - (l.head hne).start) ∧
    (process_video_audio_sync v a l).map (fun res => res.audio.samples.length)
        = .ok ((l.map (fun u => msIdx a.rate (u.stop * 1000)
              - msIdx a.rate (u.start * 1000))).sum) ∧
    (process_video_audio_sync v a l).map (fun res => res.audio.samples.length)
        = .ok (msIdx a.rate ((l.getLast hne).stop * 1000)
              - msIdx a.rate ((l.head hne).start * 1000)) ∧
    (processChunk a s).samples.length
        = (sliceAudio a (s.start * 1000) (s.stop * 1000)).samples.length := by
  have hvd := videoDurs_ok v l (fun u hu =>
    ⟨(hb u hu).1, (hb u hu).2.2.2, le_trans (hb u hu).1 (hb u hu).2.1⟩)
  have hch := mapM_chunksPy a l (fun u hu =>
    ⟨(hb u hu).1, le_trans (hb u hu).1 (hb u hu).2.1⟩)
  have hproc : process_video_audio_sync v a l
      = .ok ⟨(l.map (fun u => u.stop - u.start)).sum,
             ⟨cleanedAudio a l, a.rate⟩⟩ := by
    unfold process_video_audio_sync
    rw [if_neg (by simp [hne]), hch, hvd]
    rfl
  have hmul : ∀ u : WordSegment, u ∈ l → u.start * 1000 ≤ u.stop * 1000 :=
    fun u hu => mul_le_mul_of_nonneg_right (hb u hu).2.1 (by norm_num)
  have hchunklen : ∀ u ∈ l, (processChunk a u).samples.length
      = msIdx a.rate (u.stop * 1000) - msIdx a.rate (u.start * 1000) := by
    intro u hu
    rw [processChunk_samples_length,
      sliceAudio_length a hr (hmul u hu) (hb u hu).2.2.1]
  have hca : (cleanedAudio a l).length
      = (l.map (fun u => msIdx a.rate (u.stop * 1000)
          - msIdx a.rate (u.start * 1000))).sum := by
    rw [cleanedAudio_length]
    exact congrArg List.sum (List.map_congr_left hchunklen)
  have htel := sum_msIdx_spans a.rate l hne hchain
    (fun u hu => msIdx_mono a.rate (hmul u hu))
  refine ⟨by rw [hproc]; rfl, ?_, ?_, ?_, processChunk_samples_length a s⟩
  · rw [hproc]
    show Except.ok ((l.map (fun u => u.stop - u.start)).sum) = _
    rw [sum_spans_eq l hne hchain]
  · rw [hproc]
    show Except.ok ((cleanedAudio a l).length) = _
    rw [hca]
  · rw [hproc]
    show Except.ok ((cleanedAudio a l).length) = _
    rw [hca, htel.1]

/-- Claim C1 amended witness: the spec's concrete scenario — four
contiguous segments over a 2.4 s clip sampled at 10 Hz — reassembles to
video duration 2.4 s and 24 audio samples, and the muted first chunk keeps
its sliced length. -/
theorem claim1_amended_duration_witness :
    (process_video_audio_sync ⟨12/5⟩ ⟨List.replicate 24 1, 10⟩
        [⟨"um", 0, 1/2⟩, ⟨"hello", 1/2, 6/5⟩, ⟨"uh", 6/5, 8/5⟩,
         ⟨"world", 8/5, 12/5⟩]).map SyncResult.videoDuration
      = .ok ((([⟨"um", 0, 1/2⟩, ⟨"hello", 1/2, 6/5⟩, ⟨"uh", 6/5, 8/5⟩,
          ⟨"world", 8/5, 12/5⟩] : List WordSegment).map
            (fun u => u.stop - u.start)).sum) ∧
    (process_video_audio_sync ⟨12/5⟩ ⟨List.replicate 24 1, 10⟩
        [⟨"um", 0, 1/2⟩, ⟨"hello", 1/2, 6/5⟩, ⟨"uh", 6/5, 8/5⟩,
         ⟨"world", 8/5, 12/5⟩]).map SyncResult.videoDuration
      = .ok (12/5 - 0) ∧
    (process_video_audio_sync ⟨12/5⟩ ⟨List.replicate 24 1, 10⟩
        [⟨"um", 0, 1/2⟩, ⟨"hello", 1/2, 6/5⟩, ⟨"uh", 6/5, 8/5⟩,
         ⟨"world", 8/5, 12/5⟩]).map (fun res => res.audio.samples.length)
      = .ok (msIdx 10 ((12/5) * 1000) - msIdx 10 (0 * 1000)) ∧
    (processChunk ⟨List.replicate 24 1, 10⟩ ⟨"um", 0, 1/2⟩).samples.length
      = (sliceAudio ⟨List.replicate 24 1, 10⟩ (0 * 1000)
          ((1/2) * 1000)).samples.length := by
  have h := claim1_amended_duration ⟨12/5⟩ ⟨List.replicate 24 1, 10⟩
    [⟨"um", 0, 1/2⟩, ⟨"hello", 1/2, 6/5⟩, ⟨"uh", 6/5, 8/5⟩,
     ⟨"world", 8/5, 12/5⟩] (by decide) (by simp [List.chain'_cons])
    (by decide)
    (by intro u hu; fin_cases hu <;>
          norm_num [lenMs, List.length_replicate])
    ⟨"um", 0, 1/2⟩ (by simp)
  exact ⟨h.1, h.2.1, h.2.2.2.1, h.2.2.2.2⟩

/-- Claim C2: in the reassembled audio, positions inside a filler segment's
chunk are all zero (silence), and positions inside a normal segment's chunk
are sample-for-sample the original track's samples at the segment's start
index. -/
theorem claim2_silence_and_identity (a : AudioTrack) (l : List WordSegment)
    (i k : ℕ) (hi : i < l.length) (hr : 0 < a.rate)
    (h0 : 0 ≤ l[i].start) (hse : l[i].start ≤ l[i].stop)
    (hb : l[i].stop * 1000 ≤ lenMs a)
    (hk : k < (processChunk a l[i]).samples.length) :
    (cleanedAudio a l)[chunkOffset a l i + k]? =
      if segmentIsMuted l[i] then some 0
      else a.samples[msIdx a.rate (l[i].start * 1000) + k]? := by
  have hmain : cleanedAudio a l
      = (l.map (fun s => (processChunk a s).samples)).flatten := by
    unfold cleanedAudio cleanedSegments
    rw [List.map_map]
    rfl
  have hoff : chunkOffset a l i
      = (((l.map (fun s => (processChunk a s).samples)).take i).map
          List.length).sum := by
    unfold chunkOffset
    rw [← List.map_take, List.map_map]
    rfl
  have hiL : i < (l.map (fun s => (processChunk a s).samples)).length := by
    simpa using hi
  have hkL : k < (l.map (fun s => (processChunk a s).samples))[i].length := by
    simpa using hk
  have hflat := flatten_getElem? (l.map (fun s => (processChunk a s).samples))
    i k hiL hkL
  rw [hmain, hoff, hflat, List.getElem_map]
  have hmul : l[i].start * 1000 ≤ l[i].stop * 1000 :=
    mul_le_mul_of_nonneg_right hse (by norm_num)
  by_cases hm : segmentIsMuted l[i] = true
  · rw [if_pos hm]
    have hk2 := hk
    unfold processChunk at hk2 ⊢
    rw [if_pos hm] at hk2 ⊢
    simp only [List.length_replicate] at hk2
    simp [List.getElem?_replicate, hk2]
  · rw [if_neg hm]
    have hk2 := hk
    unfold processChunk at hk2 ⊢
    rw [if_neg hm] at hk2 ⊢
    have hslen := sliceAudio_length a hr hmul hb
    rw [hslen] at hk2
    have hei := msIdx_le_length a hr hb
    unfold sliceAudio
    rw [min_eq_left (hmul.trans hb), min_eq_left hb]
    rw [List.getElem?_drop]
    have hlt : msIdx a.rate (l[i].start * 1000) + k
        < msIdx a.rate (l[i].stop * 1000) := by omega
    rw [List.getElem?_take_of_lt hlt]

/-- Claim C2 witness: over the track [3,4,5,6] at 4 Hz with a muted "um"
over [0, 1/2) and a normal "hi" over [1/2, 1), the cleaned audio is
silent at position 0 and carries the original sample 6 at position 3. -/
theorem claim2_silence_and_identity_witness :
    (cleanedAudio ⟨[3, 4, 5, 6], 4⟩
        [⟨"um", 0, 1/2⟩, ⟨"hi", 1/2, 1⟩])[0]? = some 0 ∧
    (cleanedAudio ⟨[3, 4, 5, 6], 4⟩
        [⟨"um", 0, 1/2⟩, ⟨"hi", 1/2, 1⟩])[3]? = some 6 := by
  have hc1 : (processChunk ⟨[3, 4, 5, 6], 4⟩
      ⟨"um", 0, 1/2⟩).samples.length = 2 := by
    rw [processChunk_samples_length,
      sliceAudio_length ⟨[3, 4, 5, 6], 4⟩ (by decide)
        (by norm_num) (by norm_num [lenMs])]
    show msIdx 4 ((1/2 : ℚ) * 1000) - msIdx 4 ((0 : ℚ) * 1000) = 2
    rw [msIdx_eval 4 ((1/2 : ℚ) * 1000) 2 (by norm_num),
      msIdx_eval 4 ((0 : ℚ) * 1000) 0 (by norm_num)]
  have hc2 : (processChunk ⟨[3, 4, 5, 6], 4⟩
      ⟨"hi", 1/2, 1⟩).samples.length = 2 := by
    rw [processChunk_samples_length,
      sliceAudio_length ⟨[3, 4, 5, 6], 4⟩ (by decide)
        (by norm_num) (by norm_num [lenMs])]
    show msIdx 4 ((1 : ℚ) * 1000) - msIdx 4 ((1/2 : ℚ) * 1000) = 2
    rw [msIdx_eval 4 ((1 : ℚ) * 1000) 4 (by norm_num),
      msIdx_eval 4 ((1/2 : ℚ) * 1000) 2 (by norm_num)]
  constructor
  · have h := claim2_silence_and_identity ⟨[3, 4, 5, 6], 4⟩
      [⟨"um", 0, 1/2⟩, ⟨"hi", 1/2, 1⟩] 0 0 (by decide) (by decide)
      (by norm_num [List.getElem_cons_zero])
      (by norm_num [List.getElem_cons_zero])
      (by norm_num [List.getElem_cons_zero, lenMs])
      (by
        have e0 : (([⟨"um", 0, 1/2⟩, ⟨"hi", 1/2, 1⟩] :
            List WordSegment)[0]) = ⟨"um", 0, 1/2⟩ := rfl
        rw [e0, hc1]
        decide)
    rw [show chunkOffset ⟨[3, 4, 5, 6], 4⟩
        [⟨"um", 0, 1/2⟩, ⟨"hi", 1/2, 1⟩] 0 + 0 = 0 from rfl] at h
    rw [if_pos (by decide)] at h
    exact h
  · have h := claim2_silence_and_identity ⟨[3, 4, 5, 6], 4⟩
      [⟨"um", 0, 1/2⟩, ⟨"hi", 1/2, 1⟩] 1 1 (by decide) (by decide)
      (by norm_num [List.getElem_cons_succ, List.getElem_cons_zero])
      (by norm_num [List.getElem_cons_succ, List.getElem_cons_zero])
      (by norm_num [List.getElem_cons_succ, List.getElem_cons_zero, lenMs])
      (by
        have e1 : (([⟨"um", 0, 1/2⟩, ⟨"hi", 1/2, 1⟩] :
            List WordSegment)[1]) = ⟨"hi", 1/2, 1⟩ := rfl
        rw [e1, hc2]
        decide)
    have hoff : chunkOffset ⟨[3, 4, 5, 6], 4⟩
        [⟨"um", 0, 1/2⟩, ⟨"hi", 1/2, 1⟩] 1 + 1 = 3 := by
      show (processChunk ⟨[3, 4, 5, 6], 4⟩
          ⟨"um", 0, 1/2⟩).samples.length + 0 + 1 = 3
      rw [hc1]
    rw [hoff] at h
    rw [if_neg (by decide)] at h
    rw [h]
    show (([3, 4, 5, 6] : List ℤ))[msIdx 4 (((1 : ℚ)/2) * 1000) + 1]?
        = some 6
    rw [msIdx_eval 4 (((1 : ℚ)/2) * 1000) 2 (by norm_num)]
    decide

/-- Claim C6 counterexample: two out-of-bounds segments that fault instead
of clamping.  A segment whose start (2 s) lies beyond the video duration
(1 s) raises the moviepy range fault, and a segment whose start (-5 s) lies
below `-len` of the 1 s audio track raises pydub's TooManyMissingFrames
from the audio slice itself. -/
theorem claim6_counterexample :
    process_video_audio_sync ⟨1⟩ ⟨[1, 1, 1], 3⟩ [⟨"hi", 2, 3⟩]
      = .error .rangeError ∧
    process_video_audio_sync ⟨1⟩ ⟨[1, 1, 1], 3⟩ [⟨"x", -5, 1/2⟩]
      = .error .tooManyMissingFrames := by
  constructor
  · have hch6 := mapM_chunksPy ⟨[1, 1, 1], 3⟩ [⟨"hi", 2, 3⟩]
      (by intro s hs; fin_cases hs <;> norm_num)
    have hsub6 : subclip (1 : ℚ) 2 3 = .error .rangeError := by
      norm_num [subclip]
    have hvd6 : videoDurs ⟨1⟩ [⟨"hi", 2, 3⟩] = .error .rangeError := by
      simp only [videoDurs, List.mapM_cons]
      rw [hsub6, exbind_error]
    unfold process_video_audio_sync
    rw [if_neg (by simp), hch6, hvd6]
  · have hlen1000 : lenMs ⟨[1, 1, 1], 3⟩ = 1000 := by norm_num [lenMs]
    have hmin1 : min ((-5 : ℚ) * 1000) (lenMs ⟨[1, 1, 1], 3⟩)
        = -5000 := by
      rw [hlen1000]; norm_num
    have hmin2 : min ((1/2 : ℚ) * 1000) (lenMs ⟨[1, 1, 1], 3⟩) = 500 := by
      rw [hlen1000]; norm_num
    have hp1 : parse_position ⟨[1, 1, 1], 3⟩ (-5000) = -12 := by
      norm_num [parse_position, truncQ, lenMs]
    have hp2 : parse_position ⟨[1, 1, 1], 3⟩ 500 = 1 := by
      norm_num [parse_position, truncQ, lenMs]
    have hpy1 : pySliceIdx ([1, 1, 1] : List ℤ).length (-12) = 0 := by
      unfold pySliceIdx
      rw [if_pos (by norm_num)]
      rw [show ((([1, 1, 1] : List ℤ).length : ℤ) + -12) = -9 by norm_num]
      rfl
    have hpy2 : pySliceIdx ([1, 1, 1] : List ℤ).length 1 = 1 := by
      unfold pySliceIdx
      rw [if_neg (by norm_num)]
      rfl
    have hsl : sliceAudioPy ⟨[1, 1, 1], 3⟩ ((-5 : ℚ) * 1000)
        ((1/2 : ℚ) * 1000) = .error .tooManyMissingFrames := by
      simp only [sliceAudioPy]
      rw [hmin1, hmin2, hp1, hp2, hpy1, hpy2]
      norm_num
    have hsl2 : sliceAudioPy ⟨[1, 1, 1], 3⟩
        ((⟨"x", -5, 1/2⟩ : WordSegment).start * 1000)
        ((⟨"x", -5, 1/2⟩ : WordSegment).stop * 1000)
        = .error .tooManyMissingFrames := hsl
    have hpc : processChunkPy ⟨[1, 1, 1], 3⟩ ⟨"x", -5, 1/2⟩
        = .error .tooManyMissingFrames := by
      unfold processChunkPy
      rw [hsl2]
    have hmap : ([⟨"x", -5, 1/2⟩] : List WordSegment).mapM
        (processChunkPy ⟨[1, 1, 1], 3⟩) = .error .tooManyMissingFrames := by
      rw [List.mapM_cons, hpc, exbind_error]
    unfold process_video_audio_sync
    rw [if_neg (by simp), hmap]

/-- Claim C6 (amended): for non-negative timestamps, audio slicing clamps
to the track's valid range and never faults — pydub's full slice agrees
with the clamped slice there and reassembly succeeds whenever each
segment's start also lies within the video duration — and a clamped slice
never extends past the audio track.  Outside that regime the code does
fault rather than clamp: a video start beyond the duration raises the
moviepy range error, and an audio start below `-len` raises pydub's
TooManyMissingFrames (see the counterexample). -/
theorem claim6_amended_clamping (v : VideoTrack) (a : AudioTrack)
    (l : List WordSegment) (sMs eMs : ℚ) (hne : l ≠ [])
    (hb : ∀ s ∈ l, 0 ≤ s.start ∧ 0 ≤ s.stop ∧ s.start ≤ v.duration)
    (hs : 0 ≤ sMs) (he : 0 ≤ eMs) :
    exceptOk (process_video_audio_sync v a l) = true ∧
    sliceAudioPy a sMs eMs = .ok (sliceAudio a sMs eMs) ∧
    (sliceAudio a sMs eMs).samples.length ≤ a.samples.length := by
  refine ⟨?_, sliceAudioPy_nonneg a hs he, sliceAudio_length_le a sMs eMs⟩
  have hch := mapM_chunksPy a l (fun u hu => ⟨(hb u hu).1, (hb u hu).2.1⟩)
  obtain ⟨ds, hds⟩ := videoDurs_isOk v l (fun u hu => (hb u hu).2.2)
  unfold process_video_audio_sync
  rw [if_neg (by simp [hne]), hch, hds]
  rfl

/-- Claim C6 amended witness: a segment reaching far beyond the audio
bounds (but starting inside the 1 s video) reassembles without a fault,
and a wildly out-of-range slice of a 2-sample track agrees with the full
pydub slice and stays within 2 samples. -/
theorem claim6_amended_clamping_witness :
    exceptOk (process_video_audio_sync ⟨1⟩ ⟨[1, 1], 2⟩ [⟨"x", 0, 50⟩])
      = true ∧
    sliceAudioPy ⟨[1, 1], 2⟩ 5000 9000
      = .ok (sliceAudio ⟨[1, 1], 2⟩ 5000 9000) ∧
    (sliceAudio ⟨[1, 1], 2⟩ 5000 9000).samples.length ≤ 2 :=
  claim6_amended_clamping ⟨1⟩ ⟨[1, 1], 2⟩ [⟨"x", 0, 50⟩] 5000 9000
    (by decide) (by intro s hs; fin_cases hs <;> norm_num)
    (by norm_num) (by norm_num)

/-- Claim C7: a zero-length segment (start = end, within bounds) raises no
error during reassembly: its audio chunk is empty, its video sub-clip has
duration 0, a transcript of just that segment reassembles to an empty
track of duration 0, and inserting it anywhere in a transcript leaves the
reassembled result unchanged. -/
theorem claim7_zero_length_segment (v : VideoTrack) (a : AudioTrack)
    (A B : List WordSegment) (z : WordSegment)
    (hz : z.start = z.stop) (h0 : 0 ≤ z.start) (hd : z.start ≤ v.duration)
    (hAB : A ++ B ≠ []) :
    (processChunk a z).samples = [] ∧
    subclip v.duration z.start z.stop = .ok 0 ∧
    process_video_audio_sync v a [z] = .ok ⟨0, ⟨[], a.rate⟩⟩ ∧
    process_video_audio_sync v a (A ++ z :: B)
      = process_video_audio_sync v a (A ++ B) := by
  have hchunk := processChunk_zero a z hz
  have hzchunk : processChunk a z = ⟨[], a.rate⟩ := by
    calc processChunk a z
        = ⟨(processChunk a z).samples, (processChunk a z).rate⟩ := rfl
      _ = ⟨[], a.rate⟩ := by rw [hchunk, processChunk_rate]
  have hpz : processChunkPy a z = .ok ⟨[], a.rate⟩ := by
    rw [processChunkPy_eq a z h0 (hz ▸ h0), hzchunk]
  have hsub : subclip v.duration z.start z.stop = .ok 0 := by
    rw [subclip_ok_of_le v.duration h0 hd]
    rw [if_neg (not_lt.mpr (hz ▸ h0))]
    rw [← hz, sub_self]
  have hvzB : videoDurs v (z :: B) =
      match videoDurs v B with
      | .ok ys => .ok ((0 : ℚ) :: ys)
      | .error e => .error e := by
    unfold videoDurs
    rw [List.mapM_cons, hsub, exbind_ok]
    cases hB : List.mapM (fun s => subclip v.duration s.start s.stop) B with
    | error e => rfl
    | ok ys => rfl
  have hchzB : (z :: B).mapM (processChunkPy a) =
      match B.mapM (processChunkPy a) with
      | .ok ys => .ok ((⟨[], a.rate⟩ : AudioTrack) :: ys)
      | .error e => .error e := by
    rw [List.mapM_cons, hpz, exbind_ok]
    cases hB : B.mapM (processChunkPy a) with
    | error e => rfl
    | ok ys => rfl
  have hsingle : process_video_audio_sync v a [z] = .ok ⟨0, ⟨[], a.rate⟩⟩ := by
    unfold process_video_audio_sync
    rw [if_neg (by simp)]
    have hm1 : ([z] : List WordSegment).mapM (processChunkPy a)
        = .ok [⟨[], a.rate⟩] := by
      rw [List.mapM_cons, hpz, exbind_ok]
      rfl
    have hvd1 : videoDurs v [z] = .ok [0] := by
      unfold videoDurs
      rw [List.mapM_cons, hsub, exbind_ok]
      rfl
    rw [hm1, hvd1]
    simp
  have happ : process_video_audio_sync v a (A ++ z :: B)
      = process_video_audio_sync v a (A ++ B) := by
    unfold process_video_audio_sync
    rw [if_neg (by simp), if_neg (by simpa using hAB)]
    rw [mapM_exc_append (processChunkPy a) A (z :: B),
      mapM_exc_append (processChunkPy a) A B, hchzB]
    cases hA : A.mapM (processChunkPy a) with
    | error e => rfl
    | ok xs =>
      cases hB : B.mapM (processChunkPy a) with
      | error e => rfl
      | ok ys =>
        rw [videoDurs_append v A (z :: B), videoDurs_append v A B, hvzB]
        cases hvA : videoDurs v A with
        | error e => rfl
        | ok ds₁ =>
          cases hvB : videoDurs v B with
          | error e => rfl
          | ok ds₂ =>
            simp [List.sum_append, List.sum_cons, List.map_append,
              List.flatten_append]
  exact ⟨hchunk, hsub, hsingle, happ⟩

/-- Claim C7 witness: the boundary scenario's zero-length segment
(start = end = 1 within a 2 s clip) yields an empty chunk, a 0-duration
sub-clip, and is a no-op when inserted after a normal segment. -/
theorem claim7_zero_length_segment_witness :
    (processChunk ⟨[1, 2, 3, 4], 2⟩ ⟨"", 1, 1⟩).samples = [] ∧
    subclip 2 1 1 = .ok 0 ∧
    process_video_audio_sync ⟨2⟩ ⟨[1, 2, 3, 4], 2⟩ [⟨"", 1, 1⟩]
      = .ok ⟨0, ⟨[], 2⟩⟩ ∧
    process_video_audio_sync ⟨2⟩ ⟨[1, 2, 3, 4], 2⟩
        ([⟨"um", 0, 1⟩] ++ ⟨"", 1, 1⟩ :: [])
      = process_video_audio_sync ⟨2⟩ ⟨[1, 2, 3, 4], 2⟩
        ([⟨"um", 0, 1⟩] ++ []) :=
  claim7_zero_length_segment ⟨2⟩ ⟨[1, 2, 3, 4], 2⟩ [⟨"um", 0, 1⟩] []
    ⟨"", 1, 1⟩ rfl (by norm_num) (by norm_num) (by decide)

/-- Claim C9 counterexample: on a fully successful run, the synthesized
speech (`output_audio.wav`) and the adjusted speech
(`adjusted_ai_audio_pydub.wav`) are created but never deleted — the
cleanup block removes only the extracted audio and the uploaded temp
video. -/
theorem claim9_counterexample :
    "output_audio.wav" ∈
        (runScript ⟨true, true, true, true, true, true⟩).created ∧
    "output_audio.wav" ∉
        (runScript ⟨true, true, true, true, true, true⟩).removed ∧
    "adjusted_ai_audio_pydub.wav" ∈
        (runScript ⟨true, true, true, true, true, true⟩).created ∧
    "adjusted_ai_audio_pydub.wav" ∉
        (runScript ⟨true, true, true, true, true, true⟩).removed := by
  refine ⟨by decide, by decide, by decide, by decide⟩

/-- Claim C9 (amended): the cleanup block removes exactly the extracted
audio and the uploaded temp video, and only on runs that get past audio
extraction with a working `os.remove`; whether the final video is produced
never depends on cleanup success; a cleanup failure is reported exactly
when extraction succeeded and removal failed, and it never changes the
run's outcome. -/
theorem claim9_amended_cleanup (cfg : RunConfig) :
    (runScript cfg).removed
      = (if cfg.extractionOk && cfg.cleanupOk
          then ["extracted_audio.mp3", "temp_uploaded_video.mp4"]
          else []) ∧
    (runScript cfg).finalVideoProduced
      = (cfg.extractionOk && (cfg.transcriptionOk && cfg.hasResults
          && cfg.correctionOk) && cfg.ttsOk) ∧
    (runScript cfg).cleanupErrorReported
      = (cfg.extractionOk && !cfg.cleanupOk) := by
  obtain ⟨e, t, h, c, tt, cl⟩ := cfg
  cases e <;> cases t <;> cases h <;> cases c <;> cases tt <;> cases cl <;>
    decide

end Poc
